import Mathlib

/-!
# Verification of the PouchDB document-management views

Shallow embedding of the Vue view controllers in `src/views/me.vue`,
the unnamed view variants, and `src/views/JoshuaView.vue`.

The views delegate all persistence to PouchDB.  The store itself is
external, so its contract (get / post / put / remove / putAttachment /
removeAttachment / allDocs / find) is modelled here as pure functions
over a list of stored documents; a revision counter models the opaque
`_rev` token (bumped on every write, checked on update / delete).

Each view method becomes a total function from the component state to a
`MethodResult`, which records the resulting state, the trace of store
operations issued, the diagnostic log entries produced by `catch`
blocks, and the timers scheduled with `setTimeout`.  JavaScript `await`
sequencing is modelled as sequential composition (`MethodResult.andThen`);
failures of external operations are injected through explicit boolean
parameters, mirroring the fact that every store call may reject.
Fresh ids and random content produced by the store or by `Math.random`
are supplied as parameters.
-/

namespace DocView

/-- A binary attachment: declared content type plus payload
(the base64 body handed to `putAttachment`). -/
structure Attachment where
  content_type : String
  data : String
deriving DecidableEq, Repr

/-- A stored document, as kept by the local PouchDB database:
`_id`, `_rev` (modelled as a natural number bumped on every write),
the user fields of the view's `Document` interface, and the
`_attachments` map (name to attachment, in insertion order). -/
structure StoredDoc where
  id : String
  rev : Nat
  title : String
  description : String
  createdAt : String
  attachments : List (String × Attachment)
deriving DecidableEq, Repr

/-- Contents of a PouchDB database: the documents in store order. -/
abbrev Db := List StoredDoc

/-- A file picked in the file input: name, MIME type, and the base64
payload produced by the `FileReader`. -/
structure FileData where
  name : String
  type : String
  data : String
deriving DecidableEq, Repr

/-- Association-list lookup, modelling a JavaScript object read
`obj[key]` (`none` models `undefined`). -/
def lookupA {α : Type} (l : List (String × α)) (k : String) : Option α :=
  (l.find? (fun p => p.1 == k)).map (fun p => p.2)

/-- Association-list write, modelling a JavaScript object assignment
`obj[key] = v`: an existing key keeps its position, a new key is
appended (JS insertion order). -/
def updateA {α : Type} (l : List (String × α)) (k : String) (v : α) :
    List (String × α) :=
  if l.any (fun p => p.1 == k) then
    l.map (fun p => if p.1 == k then (k, v) else p)
  else l ++ [(k, v)]

/-- Model of `db.get(id)`: first document with the given `_id`
(`none` models the rejected not-found promise). -/
def Db.get (db : Db) (id : String) : Option StoredDoc :=
  List.find? (fun d => d.id == id) db

/-- Model of `db.post(doc)`: insert a new document; the store assigns the fresh
id (supplied here as a parameter) and an initial revision. -/
def Db.post (db : Db) (freshId title description createdAt : String) : Db :=
  db ++ [{ id := freshId, rev := 0, title := title,
           description := description, createdAt := createdAt,
           attachments := [] }]

/-- Model of `db.put(doc)`: full-document replace keyed by id; rejected when the
document does not exist or the supplied revision is stale. -/
def Db.put (db : Db) (d : StoredDoc) : Except String Db :=
  match db.get d.id with
  | none => .error "not_found"
  | some cur =>
    if cur.rev = d.rev then
      .ok (db.map (fun e => if e.id == d.id then { d with rev := d.rev + 1 } else e))
    else .error "conflict"

/-- Model of `db.remove(id, rev)`: tombstone delete keyed by id and revision;
rejected on a missing document or a stale revision. -/
def Db.remove (db : Db) (id : String) (rev : Nat) : Except String Db :=
  match db.get id with
  | none => .error "not_found"
  | some cur =>
    if cur.rev = rev then
      .ok (db.filter (fun e => !(e.id == id)))
    else .error "conflict"

/-- Effect of a successful `putAttachment` on the targeted document:
the named attachment is added (or replaced in place of any previous
one of that name) and the revision is bumped. -/
def putAttUpdate (name : String) (a : Attachment) (e : StoredDoc) :
    StoredDoc :=
  { e with rev := e.rev + 1,
           attachments :=
             (e.attachments.filter (fun p => !(p.1 == name))) ++ [(name, a)] }

/-- Model of `db.putAttachment(id, name, rev, data, type)`: add or replace the
named attachment on the given revision, bumping the revision; rejected
on a missing document or a stale revision. -/
def Db.putAttachment (db : Db) (id name : String) (rev : Nat)
    (a : Attachment) : Except String Db :=
  match db.get id with
  | none => .error "not_found"
  | some cur =>
    if cur.rev = rev then
      .ok (db.map (fun e => if e.id == id then putAttUpdate name a e else e))
    else .error "conflict"

/-- Effect of a successful `removeAttachment` on the targeted
document: the named attachment is dropped and the revision is
bumped. -/
def removeAttUpdate (name : String) (e : StoredDoc) : StoredDoc :=
  { e with rev := e.rev + 1,
           attachments := e.attachments.filter (fun p => !(p.1 == name)) }

/-- Model of `db.removeAttachment(id, name, rev)`: delete the named attachment
from the given revision, bumping the revision; rejected on a missing
document, a missing attachment, or a stale revision. -/
def Db.removeAttachment (db : Db) (id name : String) (rev : Nat) :
    Except String Db :=
  match db.get id with
  | none => .error "not_found"
  | some cur =>
    if cur.rev = rev then
      if cur.attachments.any (fun p => p.1 == name) then
        .ok (db.map (fun e => if e.id == id then removeAttUpdate name e else e))
      else .error "not_found"
    else .error "conflict"

/-- The store operations a view method can issue, recorded as a trace. -/
inductive Op where
  | get (id : String)
  | getAttachment (id name : String)
  | allDocs
  | find
  | post (id : String)
  | put (id : String)
  | remove (id : String)
  | putAttachment (id name : String)
  | removeAttachment (id name : String)
  | bulkDocs (n : Nat)
  | syncOnce
deriving DecidableEq, Repr

/-- Which traced operations mutate the local store. -/
def Op.isMutation : Op → Bool
  | .post _ => true
  | .put _ => true
  | .remove _ => true
  | .putAttachment _ _ => true
  | .removeAttachment _ _ => true
  | .bulkDocs _ => true
  | _ => false

/-- Actions a `setTimeout` callback can perform in these views. -/
inductive TimerAction where
  | clearSyncStatus
deriving DecidableEq, Repr

/-- The delay passed to `setTimeout` by `synchronizeManually`. -/
def syncStatusDelayMs : Nat := 3000

/-- Reactive state of the `me.vue` component (the fields of `data()`),
together with the database handles: `localDb` is `none` until
`initDatabase` ran (and then holds the local store contents), `storage`
records whether the remote handle is non-null. -/
structure ViewState where
  documents : List StoredDoc
  localDb : Option Db
  storage : Bool
  newTitle : String
  newDescription : String
  editingDocument : Option StoredDoc
  showEditForm : Bool
  syncStatus : String
  isSyncing : Bool
  searchQuery : String
  batchSize : Nat
  selectedFiles : List FileData
  documentAttachments : List (String × List String)
  imageUrls : List (String × String)
deriving DecidableEq, Repr

/-- Effect of firing a scheduled timer callback on the component state:
the only callback these views register is `() => { this.syncStatus = '' }`. -/
def runTimer (st : ViewState) : TimerAction → ViewState
  | TimerAction.clearSyncStatus => { st with syncStatus := "" }

/-- Result of running one view method to completion: the new component
state, the store operations issued, the `console.error` log entries,
and the timers scheduled with `setTimeout` (delay in ms, action). -/
structure MethodResult where
  state : ViewState
  ops : List Op := []
  logs : List String := []
  timers : List (Nat × TimerAction) := []
deriving DecidableEq, Repr

/-- Sequential composition of awaited steps: run `f` from the reached
state and concatenate the traces. -/
def MethodResult.andThen (r : MethodResult) (f : ViewState → MethodResult) :
    MethodResult :=
  let r2 := f r.state
  { state := r2.state, ops := r.ops ++ r2.ops,
    logs := r.logs ++ r2.logs, timers := r.timers ++ r2.timers }

/-- Method `fetchDocumentAttachments(docId)`: re-read the document with
attachment metadata; when the result carries an `_attachments` map
(PouchDB omits the field when there are no attachments, modelled as the
empty list) store its key set under `documentAttachments[docId]`.
A failed `get` is caught and logged. -/
def fetchDocumentAttachments (st : ViewState) (docId : String) :
    MethodResult :=
  match st.localDb with
  | none => { state := st }
  | some db =>
    match db.get docId with
    | none =>
      { state := st, ops := [Op.get docId],
        logs := ["attachments-fetch-error"] }
    | some doc =>
      if doc.attachments.isEmpty then
        { state := st, ops := [Op.get docId] }
      else
        let names := doc.attachments.map (fun p => p.1)
        let da := updateA st.documentAttachments docId names
        { state := { st with documentAttachments := da },
          ops := [Op.get docId] }

/-- Method `fetchDocuments()` as written in `me.vue`: list all documents with
`allDocs({include_docs: true})`, replace the in-memory list, then fetch
the attachment names of every listed document.  `fail` injects a
rejection of the `allDocs` call, which the `catch` block logs, leaving
the state untouched. -/
def fetchDocuments (fail : Bool) (st : ViewState) : MethodResult :=
  match st.localDb with
  | none => { state := st }
  | some db =>
    if fail then
      { state := st, ops := [Op.allDocs], logs := ["fetch-documents-error"] }
    else
      List.foldl (fun r doc => r.andThen (fun s => fetchDocumentAttachments s doc.id))
        { state := { st with documents := db }, ops := [Op.allDocs] } db

/-- Method `searchDocuments()`: with a database handle and a non-empty query,
run a `find` with a case-insensitive regex selector on `title`
(the regex test is supplied as the predicate `matches`, the embedding
of `RegExp(this.searchQuery, 'i').test`) and replace the in-memory
list with the matching documents; otherwise fall back to
`fetchDocuments()`.  `fail` injects a rejection of the `find` call. -/
def searchDocuments (rtest : String → Bool) (fail : Bool)
    (st : ViewState) : MethodResult :=
  match st.localDb with
  | none => fetchDocuments fail st
  | some db =>
    if st.searchQuery = "" then fetchDocuments fail st
    else if fail then
      { state := st, ops := [Op.find], logs := ["search-error"] }
    else
      { state := { st with documents := db.filter (fun d => rtest d.title) },
        ops := [Op.find] }

/-- Whether the first character list occurs contiguously inside the
second one. -/
def infixCheck (n : List Char) : List Char → Bool
  | [] => n.isEmpty
  | c :: rest => List.isPrefixOf n (c :: rest) || infixCheck n rest

/-- The string lowercased character by character (the effect of
JavaScript `toLowerCase` on the ASCII file names and titles used
here). -/
def lowerString (s : String) : String := String.mk (s.data.map Char.toLower)

/-- Whether `s` ends with the given suffix (JavaScript
`String.prototype.endsWith`). -/
def endsWithStr (s suffix : String) : Bool := List.isSuffixOf suffix.data s.data

/-- Case-insensitive substring test: the semantics of the selector
`title: { $regex: RegExp(query, 'i') }` for a plain-text query. -/
def ciContains (pattern s : String) : Bool :=
  infixCheck (lowerString pattern).data (lowerString s).data

/-- Method `synchronizeManually()`: guarded by `!localDb || !storage ||
isSyncing`; sets the busy flag and the in-progress status, awaits a
one-shot `PouchDB.sync` (`syncFails` injects its rejection; on success
the replicated local contents are `syncedDb`), then re-fetches and
shows the success status plus a 3000 ms timer clearing the status.
On failure the `catch` block logs and shows the error status — no
timer is scheduled on that path.  The `try/catch/finally` wraps the
guard too, and a JavaScript `finally` runs even on an early `return`,
so the `finally` assignment `isSyncing = false` takes effect on every
exit, the three guarded early returns included. -/
def synchronizeManually (syncFails fetchFails : Bool) (syncedDb : Db)
    (st : ViewState) : MethodResult :=
  match st.localDb with
  | none => { state := { st with isSyncing := false } }
  | some _ =>
    if !st.storage then { state := { st with isSyncing := false } }
    else if st.isSyncing then { state := { st with isSyncing := false } }
    else
      let st1 := { st with isSyncing := true,
                           syncStatus := "Synchronisation en cours..." }
      if syncFails then
        { state := { st1 with syncStatus := "Erreur de synchronisation",
                              isSyncing := false },
          ops := [Op.syncOnce], logs := ["sync-error"] }
      else
        let st2 := { st1 with localDb := some syncedDb }
        let r := fetchDocuments fetchFails st2
        { state := { r.state with syncStatus := "Synchronisation réussie !",
                                  isSyncing := false },
          ops := Op.syncOnce :: r.ops, logs := r.logs,
          timers := [(syncStatusDelayMs, TimerAction.clearSyncStatus)] }

/-- Method `addAttachmentsToDocument(docId, files)`: read the document once to
capture its revision, then for each selected file write the file body
as an attachment using that captured (hence, from the second file on,
stale) revision, and re-fetch the document's attachment names.  Each
file's write failure is caught and logged by the inner handler and the
loop continues (the variant with the inner `try`/`catch`); a failed
initial `get` is caught and logged by the outer handler.  The
asynchronous `FileReader` completions are modelled as running in file
order. -/
def addAttachmentsToDocument (st : ViewState) (docId : String)
    (files : List FileData) : MethodResult :=
  match st.localDb with
  | none => { state := st }
  | some db =>
    match db.get docId with
    | none =>
      { state := st, ops := [Op.get docId], logs := ["attachments-add-error"] }
    | some doc =>
      List.foldl (fun r f =>
        r.andThen (fun s =>
          match s.localDb with
          | none => { state := s }
          | some cur =>
            match cur.putAttachment docId f.name doc.rev
                    { content_type := f.type, data := f.data } with
            | .error _ =>
              { state := s, ops := [Op.putAttachment docId f.name],
                logs := ["attachment-add-error"] }
            | .ok db2 =>
              MethodResult.andThen
                { state := { s with localDb := some db2 },
                  ops := [Op.putAttachment docId f.name] }
                (fun s2 => fetchDocumentAttachments s2 docId)))
        { state := st, ops := [Op.get docId] } files

/-- Method `deleteAttachment(docId, attachmentName)`: read the document to get
its current revision, remove the named attachment at that revision,
then re-fetch the document's attachment names.  Failures of the `get`
or of the removal are caught and logged. -/
def deleteAttachment (st : ViewState) (docId attachmentName : String) :
    MethodResult :=
  match st.localDb with
  | none => { state := st }
  | some db =>
    match db.get docId with
    | none =>
      { state := st, ops := [Op.get docId], logs := ["attachment-delete-error"] }
    | some doc =>
      match db.removeAttachment docId attachmentName doc.rev with
      | .error _ =>
        { state := st,
          ops := [Op.get docId, Op.removeAttachment docId attachmentName],
          logs := ["attachment-delete-error"] }
      | .ok db2 =>
        MethodResult.andThen
          { state := { st with localDb := some db2 },
            ops := [Op.get docId, Op.removeAttachment docId attachmentName] }
          (fun s => fetchDocumentAttachments s docId)

/-- Method `addDocument()`: only when the database handle exists and both form
fields are non-empty (JavaScript string truthiness), post a new
document built from the form fields plus the current timestamp (the
store-assigned id and the clock are parameters), attach any selected
files to it, clear the form fields and the file selection, and re-run
the full listing. -/
def addDocument (freshId now : String) (fetchFails : Bool)
    (st : ViewState) : MethodResult :=
  match st.localDb with
  | none => { state := st }
  | some db =>
    if st.newTitle ≠ "" ∧ st.newDescription ≠ "" then
      let db1 := db.post freshId st.newTitle st.newDescription now
      let r1 : MethodResult :=
        { state := { st with localDb := some db1 }, ops := [Op.post freshId] }
      let r2 :=
        if st.selectedFiles.isEmpty then r1
        else r1.andThen (fun s => addAttachmentsToDocument s freshId st.selectedFiles)
      let r3 : MethodResult :=
        { r2 with state :=
            { r2.state with newTitle := "", newDescription := "",
                            selectedFiles := [] } }
      r3.andThen (fetchDocuments fetchFails)
    else { state := st }

/-- Method `updateDocument()`: when a document is being edited, `put` the
edited copy (full-document replace carrying the revision captured when
editing started), reset the edit state, and re-run the full listing.
A rejected `put` (conflict or missing document) is caught and logged;
on that path the edit state is left as it was since the resets follow
the awaited call. -/
def updateDocument (fetchFails : Bool) (st : ViewState) : MethodResult :=
  match st.localDb with
  | none => { state := st }
  | some db =>
    match st.editingDocument with
    | none => { state := st }
    | some ed =>
      match db.put ed with
      | .error _ =>
        { state := st, ops := [Op.put ed.id], logs := ["update-error"] }
      | .ok db2 =>
        MethodResult.andThen
          { state := { st with localDb := some db2, editingDocument := none,
                               showEditForm := false },
            ops := [Op.put ed.id] }
          (fetchDocuments fetchFails)

/-- Method `deleteDocument(document)`: remove the document by its id and
revision (documents rendered in the list always carry both, so the
`document._id && document._rev` guard holds) and re-run the full
listing; a rejected remove is caught and logged. -/
def deleteDocument (fetchFails : Bool) (d : StoredDoc) (st : ViewState) :
    MethodResult :=
  match st.localDb with
  | none => { state := st }
  | some db =>
    match db.remove d.id d.rev with
    | .error _ =>
      { state := st, ops := [Op.remove d.id], logs := ["delete-error"] }
    | .ok db2 =>
      MethodResult.andThen
        { state := { st with localDb := some db2 }, ops := [Op.remove d.id] }
        (fetchDocuments fetchFails)

/-- One generated document of `generateBatchDocuments`: random title
suffix and locale-formatted clock are parameters, as is the id the
store assigns on `bulkDocs`. -/
def batchDoc (freshId : String) (rnd : Nat) (i : Nat) (now nowLocale : String) :
    StoredDoc :=
  { id := freshId, rev := 0,
    title := "Document Test " ++ toString rnd,
    description := "Description générée " ++ toString i ++ " - " ++ nowLocale,
    createdAt := now, attachments := [] }

/-- Method `generateBatchDocuments()`: build `batchSize` generated documents,
insert them with one `bulkDocs` call, and re-run the full listing. -/
def generateBatchDocuments (freshIds : Nat → String) (rnds : Nat → Nat)
    (now nowLocale : String) (fetchFails : Bool) (st : ViewState) :
    MethodResult :=
  match st.localDb with
  | none => { state := st }
  | some db =>
    let batch := (List.range st.batchSize).map
      (fun i => batchDoc (freshIds i) (rnds i) i now nowLocale)
    MethodResult.andThen
      { state := { st with localDb := some (db ++ batch) },
        ops := [Op.bulkDocs st.batchSize] }
      (fetchDocuments fetchFails)

/-- Helper `isImage(filename)`: the filename, lowercased, ends in one of the
image extensions. -/
def imageExtensions : List String := [".jpg", ".jpeg", ".png", ".gif", ".webp"]

/-- Method `isImage` from the unnamed view: extension test on the lowercased
filename. -/
def isImage (filename : String) : Bool :=
  imageExtensions.any (fun ext => endsWithStr (lowerString filename) ext)

/-- The opaque handle `URL.createObjectURL` returns for the blob of the
named attachment. -/
def objectUrl (docId attachmentName : String) : String :=
  "blob:" ++ docId ++ "/" ++ attachmentName

/-- The cache key `docId + '-' + attachmentName` under which
`loadImageUrl` stores the object URL. -/
def imgKey (docId attachmentName : String) : String :=
  docId ++ "-" ++ attachmentName

/-- Method `getImageData(docId, attachmentName)`: read the attachment blob
from the local store and turn it into an object URL; a missing handle
yields `null`, a rejected read is caught, logged, and yields `null`.
Returns the optional URL with the issued operations and logs. -/
def getImageData (st : ViewState) (docId attachmentName : String) :
    Option String × List Op × List String :=
  match st.localDb with
  | none => (none, [], [])
  | some db =>
    match db.get docId with
    | none => (none, [Op.getAttachment docId attachmentName], ["image-get-error"])
    | some doc =>
      match lookupA doc.attachments attachmentName with
      | none => (none, [Op.getAttachment docId attachmentName], ["image-get-error"])
      | some _ => (some (objectUrl docId attachmentName),
                   [Op.getAttachment docId attachmentName], [])

/-- Method `loadImageUrl(docId, attachment)`: store
`getImageData(...) || ''` under the cache key. -/
def loadImageUrl (st : ViewState) (docId attachmentName : String) :
    MethodResult :=
  let r := getImageData st docId attachmentName
  let urls := updateA st.imageUrls (imgKey docId attachmentName) (r.1.getD "")
  { state := { st with imageUrls := urls }, ops := r.2.1, logs := r.2.2 }

/-- The inner loop of the unnamed view's `fetchDocuments`: walk the
cached attachment names of one document and load the object URL of
every name that passes `isImage`. -/
def loadImagesFold (docId : String) (acc : MethodResult)
    (names : List String) : MethodResult :=
  List.foldl (fun r n =>
      if isImage n then r.andThen (fun s2 => loadImageUrl s2 docId n) else r)
    acc names

/-- Per-document body of the unnamed view's `fetchDocuments` loop:
fetch the document's attachment names, then for every cached name that
passes `isImage` load its object URL. -/
def processDocImages (st : ViewState) (docId : String) : MethodResult :=
  MethodResult.andThen (fetchDocumentAttachments st docId) (fun s1 =>
    match lookupA s1.documentAttachments docId with
    | none => { state := s1 }
    | some names => loadImagesFold docId { state := s1 } names)

/-- The outer loop of the unnamed view's `fetchDocuments`: process
each listed document in order. -/
def imgDocsFold (acc : MethodResult) (docs : List StoredDoc) : MethodResult :=
  List.foldl (fun r doc => r.andThen (fun s => processDocImages s doc.id))
    acc docs

/-- Method `fetchDocuments()` as written in the unnamed view with image
support: list all documents, then per document fetch attachment names
and load the object URL of every image attachment. -/
def fetchDocumentsImg (fail : Bool) (st : ViewState) : MethodResult :=
  match st.localDb with
  | none => { state := st }
  | some db =>
    if fail then
      { state := st, ops := [Op.allDocs], logs := ["fetch-documents-error"] }
    else
      imgDocsFold
        { state := { st with documents := db }, ops := [Op.allDocs] } db

/-- Reactive state of the `JoshuaView.vue` component. -/
structure JoshuaState where
  btnValue : Nat
  db : Option Db
  documents : List StoredDoc
deriving DecidableEq, Repr

/-- Method `getAllDocs()` of `JoshuaView.vue`: with no database handle, log
`Database not initialized` and return; otherwise list all documents,
replace the in-memory list and bump the button counter; a rejected
listing is caught and logged. -/
def getAllDocs (fail : Bool) (jst : JoshuaState) :
    JoshuaState × List Op × List String :=
  match jst.db with
  | none => (jst, [], ["Database not initialized"])
  | some db =>
    if fail then (jst, [Op.allDocs], ["fetch-error"])
    else ({ jst with documents := db, btnValue := jst.btnValue + 1 },
          [Op.allDocs], [])

/-- The image-cache entries built from an attachment list: for each
attachment passing `isImage`, the cache key paired with the object
URL. -/
def imgEntriesOf (docId : String) (atts : List (String × Attachment)) :
    List (String × String) :=
  (atts.filter (fun p => isImage p.1)).map
    (fun p => (imgKey docId p.1, objectUrl docId p.1))

/-- The payload reads issued for an attachment list: one
`getAttachment` per attachment passing `isImage`. -/
def imgGetsOf (docId : String) (atts : List (String × Attachment)) :
    List Op :=
  (atts.filter (fun p => isImage p.1)).map
    (fun p => Op.getAttachment docId p.1)

/-- The image attachments of a stored document: those whose name
passes `isImage`. -/
def imgAtts (doc : StoredDoc) : List (String × Attachment) :=
  doc.attachments.filter (fun p => isImage p.1)

/-- The image-cache entries the view builds for one document. -/
def imgEntries (doc : StoredDoc) : List (String × String) :=
  imgEntriesOf doc.id doc.attachments

/-- The store operations the image-loading listing issues for one
document: the attachment-names read plus one payload read per image
attachment. -/
def imgOps (doc : StoredDoc) : List Op :=
  Op.get doc.id :: imgGetsOf doc.id doc.attachments

/-! ## Concrete data used by witnesses and counterexamples -/

/-- A concrete image attachment. -/
def wImageAtt : Attachment := { content_type := "image/png", data := "iVBORw0KGgo" }

/-- A concrete non-image attachment. -/
def wTextAtt : Attachment := { content_type := "text/plain", data := "aGVsbG8=" }

/-- A concrete stored document with one image and one text attachment. -/
def wDoc : StoredDoc :=
  { id := "d1", rev := 5, title := "Hello World", description := "first doc",
    createdAt := "2024-01-01T00:00:00.000Z",
    attachments := [("photo.png", wImageAtt), ("notes.txt", wTextAtt)] }

/-- A concrete one-document database. -/
def wDb : Db := [wDoc]

/-- A freshly mounted component state over the given local store
contents (the initial `data()` values, remote handle connected). -/
def mkState (db : Db) : ViewState :=
  { documents := [], localDb := some db, storage := true, newTitle := "",
    newDescription := "", editingDocument := none, showEditForm := false,
    syncStatus := "", isSyncing := false, searchQuery := "", batchSize := 10,
    selectedFiles := [], documentAttachments := [], imageUrls := [] }

/-- A component state whose database handle was never initialized. -/
def nullState : ViewState := { mkState wDb with localDb := none }

/-- A `JoshuaView` state whose database handle was never initialized. -/
def jNull : JoshuaState := { btnValue := 0, db := none, documents := [] }

/-- A document whose only attachment is the image. -/
def c1Doc : StoredDoc :=
  { id := "d1", rev := 5, title := "Hello World", description := "first doc",
    createdAt := "2024-01-01T00:00:00.000Z",
    attachments := [("photo.png", wImageAtt)] }

/-- A one-document database where the document has exactly one
attachment. -/
def c1Db : Db := [c1Doc]

/-- A state displaying that document's attachment list. -/
def c1State : ViewState :=
  { mkState c1Db with documentAttachments := [("d1", ["photo.png"])] }

/-! ## Helper lemmas: association lists and the store contract -/

theorem lookupA_cons {α : Type} (p : String × α) (l : List (String × α))
    (k : String) :
    lookupA (p :: l) k = if p.1 == k then some p.2 else lookupA l k := by
  by_cases hp : (p.1 == k) = true
  · simp [lookupA, List.find?, hp]
  · have hp' : (p.1 == k) = false := by simpa using hp
    simp [lookupA, List.find?, hp']

theorem lookupA_eq_none_iff {α : Type} (l : List (String × α)) (k : String) :
    lookupA l k = none ↔ l.any (fun p => p.1 == k) = false := by
  induction l with
  | nil => simp [lookupA]
  | cons p rest ih =>
    rw [lookupA_cons]
    by_cases hp : (p.1 == k) = true
    · simp [hp]
    · have hp' : (p.1 == k) = false := by simpa using hp
      simp [hp', ih]

theorem lookupA_append {α : Type} (l₁ l₂ : List (String × α)) (k : String) :
    lookupA (l₁ ++ l₂) k = (lookupA l₁ k).or (lookupA l₂ k) := by
  induction l₁ with
  | nil => simp [lookupA]
  | cons p rest ih =>
    rw [List.cons_append, lookupA_cons, lookupA_cons]
    by_cases hp : (p.1 == k) = true
    · simp [hp]
    · have hp' : (p.1 == k) = false := by simpa using hp
      simp [hp', ih]

theorem updateA_of_none {α : Type} (l : List (String × α)) (k : String)
    (v : α) (h : lookupA l k = none) : updateA l k v = l ++ [(k, v)] := by
  unfold updateA
  rw [(lookupA_eq_none_iff l k).mp h]
  simp

theorem lookupA_updateA_self {α : Type} (l : List (String × α)) (k : String)
    (v : α) : lookupA (updateA l k v) k = some v := by
  unfold updateA
  by_cases h : l.any (fun p => p.1 == k) = true
  · rw [if_pos h]
    induction l with
    | nil => simp at h
    | cons p rest ih =>
      by_cases hp : (p.1 == k) = true
      · simp only [List.map_cons, if_pos hp]
        rw [lookupA_cons]
        simp
      · have hp' : (p.1 == k) = false := by simpa using hp
        have hr : rest.any (fun q => q.1 == k) = true := by
          simpa [hp'] using h
        simp only [List.map_cons, hp', Bool.false_eq_true, if_false]
        rw [lookupA_cons, if_neg (by simp [hp'])]
        exact ih hr
  · have h' : (l.any fun p => p.1 == k) = false := Bool.eq_false_iff.mpr h
    rw [if_neg h, lookupA_append,
        (lookupA_eq_none_iff l k).mpr h']
    rw [lookupA_cons]
    simp [lookupA]

theorem lookupA_map_update_ne {α : Type} (l : List (String × α))
    (k k' : String) (v : α) (h : k' ≠ k) :
    lookupA (l.map (fun p => if p.1 == k then (k, v) else p)) k' =
      lookupA l k' := by
  induction l with
  | nil => rfl
  | cons p rest ih =>
    by_cases hp : (p.1 == k) = true
    · have hpk : p.1 = k := by simpa using hp
      have hk' : (k == k') = false := by
        simp only [beq_eq_false_iff_ne, ne_eq]
        exact fun hc => h hc.symm
      have hp' : (p.1 == k') = false := by rw [hpk]; exact hk'
      simp only [List.map_cons, if_pos hp]
      rw [lookupA_cons, lookupA_cons, if_neg (by simp [hk']),
          if_neg (by simp [hp'])]
      exact ih
    · have hp' : (p.1 == k) = false := by simpa using hp
      simp only [List.map_cons, hp', Bool.false_eq_true, if_false]
      rw [lookupA_cons, lookupA_cons]
      by_cases hpk' : (p.1 == k') = true
      · simp [hpk']
      · have h2 : (p.1 == k') = false := by simpa using hpk'
        simp only [h2, Bool.false_eq_true, if_false]
        exact ih

theorem lookupA_updateA_ne {α : Type} (l : List (String × α)) (k k' : String)
    (v : α) (h : k' ≠ k) : lookupA (updateA l k v) k' = lookupA l k' := by
  unfold updateA
  by_cases hm : l.any (fun p => p.1 == k) = true
  · rw [if_pos hm]
    exact lookupA_map_update_ne l k k' v h
  · rw [if_neg hm, lookupA_append]
    rw [lookupA_cons]
    have hk' : (k == k') = false := by
      simp only [beq_eq_false_iff_ne, ne_eq]
      exact fun hc => h hc.symm
    simp [hk', lookupA]

theorem lookupA_of_mem {α : Type} (l : List (String × α)) (k : String)
    (v : α) (h : (k, v) ∈ l) : ∃ w, lookupA l k = some w := by
  induction l with
  | nil => simp at h
  | cons p rest ih =>
    rw [lookupA_cons]
    by_cases hp : (p.1 == k) = true
    · simp [hp]
    · have hp' : (p.1 == k) = false := by simpa using hp
      have hm : (k, v) ∈ rest := by
        rcases List.mem_cons.mp h with he | hm
        · exfalso
          apply hp
          rw [← he]
          simp
        · exact hm
      simp only [hp', Bool.false_eq_true, if_false]
      exact ih hm

theorem get_beq_of_get {db : Db} {docId : String} {doc : StoredDoc}
    (h : db.get docId = some doc) : (doc.id == docId) = true := by
  unfold Db.get at h
  have h2 := List.find?_some h
  simpa using h2

/-- Reading back after an id-preserving in-place map update returns
the updated document. -/
theorem get_map_if (db : Db) (docId : String) (doc : StoredDoc)
    (g : StoredDoc → StoredDoc) (hid : ∀ e, (g e).id = e.id)
    (hget : db.get docId = some doc) :
    Db.get (db.map (fun e => if e.id == docId then g e else e)) docId =
      some (g doc) := by
  induction db with
  | nil => simp [Db.get] at hget
  | cons e rest ih =>
    by_cases he : (e.id == docId) = true
    · have : e = doc := by
        simpa [Db.get, List.find?, he] using hget
      subst this
      have hg : ((g e).id == docId) = true := by rw [hid e]; exact he
      simp [Db.get, List.find?, he, hg]
    · have he' : (e.id == docId) = false := by simpa using he
      have hrest : Db.get rest docId = some doc := by
        simpa [Db.get, List.find?, he'] using hget
      simpa [Db.get, List.find?, he'] using ih hrest

/-- With distinct ids, every stored document is found by its own id. -/
theorem get_of_mem_nodup (db : Db) (d : StoredDoc)
    (hids : (db.map (fun e => e.id)).Nodup) (hd : d ∈ db) :
    db.get d.id = some d := by
  induction db with
  | nil => simp at hd
  | cons e rest ih =>
    rcases List.mem_cons.mp hd with he | hm
    · subst he
      simp [Db.get, List.find?]
    · have hne : (e.id == d.id) = false := by
        have : e.id ∉ rest.map (fun x => x.id) := (List.nodup_cons.mp hids).1
        have hdm : d.id ∈ rest.map (fun x => x.id) := List.mem_map_of_mem _ hm
        simp only [beq_eq_false_iff_ne, ne_eq]
        intro hcon
        rw [hcon] at this
        exact this hdm
      have := ih (List.nodup_cons.mp hids).2 hm
      simpa [Db.get, List.find?, hne] using this

theorem isEmpty_append_singleton {α : Type} (l : List α) (x : α) :
    (l ++ [x]).isEmpty = false := by
  cases l <;> rfl

theorem putAttachment_ok (db : Db) (docId name : String) (doc : StoredDoc)
    (a : Attachment) (hget : db.get docId = some doc) :
    db.putAttachment docId name doc.rev a =
      Except.ok (db.map (fun e => if e.id == docId then putAttUpdate name a e else e)) := by
  simp [Db.putAttachment, hget]

theorem removeAttachment_ok (db : Db) (docId name : String) (doc : StoredDoc)
    (hget : db.get docId = some doc)
    (hany : doc.attachments.any (fun p => p.1 == name) = true) :
    db.removeAttachment docId name doc.rev =
      Except.ok (db.map (fun e => if e.id == docId then removeAttUpdate name e else e)) := by
  simp [Db.removeAttachment, hget, hany]

theorem andThen_ops (r : MethodResult) (f : ViewState → MethodResult) :
    (r.andThen f).ops = r.ops ++ (f r.state).ops := rfl

theorem fetchDA_mut_free (s : ViewState) (docId : String) :
    ((fetchDocumentAttachments s docId).ops).filter Op.isMutation = [] := by
  cases hdb : s.localDb with
  | none => simp [fetchDocumentAttachments, hdb]
  | some db =>
    cases hget : db.get docId with
    | none => simp [fetchDocumentAttachments, hdb, hget, Op.isMutation]
    | some doc =>
      by_cases he : doc.attachments.isEmpty = true <;>
        simp [fetchDocumentAttachments, hdb, hget, he, Op.isMutation]

theorem fetchLoop_filter (l : List StoredDoc) : ∀ (init : MethodResult),
    ((List.foldl (fun r doc => r.andThen (fun s => fetchDocumentAttachments s doc.id))
        init l).ops).filter Op.isMutation = (init.ops).filter Op.isMutation := by
  induction l with
  | nil => intro init; rfl
  | cons d rest ih =>
    intro init
    rw [List.foldl_cons, ih]
    simp [MethodResult.andThen, List.filter_append, fetchDA_mut_free]

theorem fetchLoop_mem (l : List StoredDoc) (x : Op) : ∀ (init : MethodResult),
    x ∈ init.ops →
    x ∈ (List.foldl (fun r doc => r.andThen (fun s => fetchDocumentAttachments s doc.id))
        init l).ops := by
  induction l with
  | nil => intro init h; exact h
  | cons d rest ih =>
    intro init h
    rw [List.foldl_cons]
    exact ih _ (List.mem_append_left _ h)

theorem fetchDocuments_mut_free (fail : Bool) (st : ViewState) :
    ((fetchDocuments fail st).ops).filter Op.isMutation = [] := by
  cases hdb : st.localDb with
  | none => simp [fetchDocuments, hdb]
  | some db =>
    cases fail with
    | true => simp [fetchDocuments, hdb, Op.isMutation]
    | false =>
      have h := fetchLoop_filter db
        { state := { st with documents := db, localDb := some db },
          ops := [Op.allDocs] }
      simp only [fetchDocuments, hdb, Bool.false_eq_true, if_false]
      exact h.trans (by simp [Op.isMutation])

theorem fetchDocuments_allDocs_mem (st : ViewState) (db : Db)
    (hdb : st.localDb = some db) :
    Op.allDocs ∈ (fetchDocuments false st).ops := by
  have h0 : Op.allDocs ∈
      ({ state := { st with documents := db, localDb := some db },
         ops := [Op.allDocs] } : MethodResult).ops := by simp
  have h := fetchLoop_mem db Op.allDocs _ h0
  simp only [fetchDocuments, hdb, Bool.false_eq_true, if_false]
  exact h

theorem lookupA_eq_none_of_not_mem {α : Type} (l : List (String × α))
    (k : String) (h : k ∉ l.map Prod.fst) : lookupA l k = none := by
  induction l with
  | nil => rfl
  | cons p rest ih =>
    rw [lookupA_cons]
    have h1 : p.1 ≠ k := by
      intro hc
      exact h (by rw [← hc]; exact List.mem_cons_self _ _)
    rw [if_neg (by simp [h1])]
    exact ih (fun hm => h (List.mem_cons_of_mem _ hm))

/-- A successful image load: the attachment exists and its cache key
is fresh, so the object URL is appended to the cache. -/
theorem loadImageUrl_ok (s : ViewState) (db : Db) (doc : StoredDoc)
    (n : String) (a : Attachment) (hdb : s.localDb = some db)
    (hget : db.get doc.id = some doc)
    (hlook : lookupA doc.attachments n = some a)
    (hfresh : lookupA s.imageUrls (imgKey doc.id n) = none) :
    loadImageUrl s doc.id n =
      { state := { s with imageUrls :=
          s.imageUrls ++ [(imgKey doc.id n, objectUrl doc.id n)] },
        ops := [Op.getAttachment doc.id n] } := by
  simp [loadImageUrl, getImageData, hdb, hget, hlook,
        updateA_of_none _ _ _ hfresh]

theorem loadImagesFold_cons (docId : String) (acc : MethodResult)
    (n : String) (names : List String) :
    loadImagesFold docId acc (n :: names) =
      loadImagesFold docId
        (if isImage n then acc.andThen (fun s => loadImageUrl s docId n)
         else acc) names := rfl

/-- Walking the attachment names of one document loads exactly the
image attachments, appending their cache entries in order. -/
theorem loadImagesFold_spec (db : Db) (doc : StoredDoc) :
    ∀ (atts : List (String × Attachment)) (acc : MethodResult)
      (s1 : ViewState),
    acc.state = s1 → s1.localDb = some db → db.get doc.id = some doc →
    (∀ p ∈ atts, p ∈ doc.attachments) →
    ((atts.filter (fun p => isImage p.1)).map
        (fun p => imgKey doc.id p.1)).Nodup →
    (∀ p ∈ atts.filter (fun p => isImage p.1),
      lookupA s1.imageUrls (imgKey doc.id p.1) = none) →
    (loadImagesFold doc.id acc (atts.map (fun p => p.1))).state =
      { s1 with imageUrls := s1.imageUrls ++ imgEntriesOf doc.id atts } ∧
    (loadImagesFold doc.id acc (atts.map (fun p => p.1))).ops =
      acc.ops ++ imgGetsOf doc.id atts ∧
    (loadImagesFold doc.id acc (atts.map (fun p => p.1))).logs = acc.logs ∧
    (loadImagesFold doc.id acc (atts.map (fun p => p.1))).timers =
      acc.timers := by
  intro atts
  induction atts with
  | nil =>
    intro acc s1 hacc hdb hget hsub hnodup hfresh
    refine ⟨?_, by simp [loadImagesFold, imgGetsOf],
      by simp [loadImagesFold], by simp [loadImagesFold]⟩
    simp [loadImagesFold, hacc, imgEntriesOf]
  | cons p rest ih =>
    intro acc s1 hacc hdb hget hsub hnodup hfresh
    by_cases himg : isImage p.1 = true
    · -- the head name is an image: it is loaded, then the tail follows
      have hpd : p ∈ doc.attachments := hsub p (List.mem_cons_self _ _)
      obtain ⟨w, hlook⟩ := lookupA_of_mem doc.attachments p.1 p.2
        (by simpa using hpd)
      have hpf : p ∈ (p :: rest).filter (fun q => isImage q.1) :=
        List.mem_filter.mpr ⟨List.mem_cons_self _ _, himg⟩
      have hkey : lookupA s1.imageUrls (imgKey doc.id p.1) = none :=
        hfresh p hpf
      have hload := loadImageUrl_ok s1 db doc p.1 w hdb hget hlook hkey
      have hfc : (p :: rest).filter (fun q => isImage q.1) =
          p :: rest.filter (fun q => isImage q.1) :=
        List.filter_cons_of_pos himg
      have hacc' : (acc.andThen (fun s => loadImageUrl s doc.id p.1)).state =
          { s1 with imageUrls :=
              s1.imageUrls ++ [(imgKey doc.id p.1, objectUrl doc.id p.1)] } := by
        simp [MethodResult.andThen, hacc, hload]
      have hndR : ((rest.filter (fun q => isImage q.1)).map
          (fun q => imgKey doc.id q.1)).Nodup := by
        rw [hfc] at hnodup
        exact (List.nodup_cons.mp (by simpa using hnodup)).2
      have hkeyR : imgKey doc.id p.1 ∉
          (rest.filter (fun q => isImage q.1)).map (fun q => imgKey doc.id q.1) := by
        rw [hfc] at hnodup
        exact (List.nodup_cons.mp (by simpa using hnodup)).1
      have hfreshR : ∀ q ∈ rest.filter (fun q => isImage q.1),
          lookupA ({ s1 with imageUrls :=
              s1.imageUrls ++ [(imgKey doc.id p.1, objectUrl doc.id p.1)] } :
            ViewState).imageUrls (imgKey doc.id q.1) = none := by
        intro q hq
        have h1 : lookupA s1.imageUrls (imgKey doc.id q.1) = none :=
          hfresh q (by rw [hfc]; exact List.mem_cons_of_mem _ hq)
        have hne : ¬(imgKey doc.id p.1 == imgKey doc.id q.1) = true := by
          simp only [beq_iff_eq]
          intro hc
          exact hkeyR (by rw [hc]; exact List.mem_map_of_mem _ hq)
        simp only [lookupA_append, h1, Option.none_or]
        rw [lookupA_cons, if_neg hne]
        rfl
      have ihh := ih (acc.andThen (fun s => loadImageUrl s doc.id p.1))
        ({ s1 with imageUrls :=
            s1.imageUrls ++ [(imgKey doc.id p.1, objectUrl doc.id p.1)] })
        hacc' (by simpa using hdb) hget
        (fun q hq => hsub q (List.mem_cons_of_mem _ hq)) hndR hfreshR
      have he1 : imgEntriesOf doc.id (p :: rest) =
          (imgKey doc.id p.1, objectUrl doc.id p.1) ::
            imgEntriesOf doc.id rest := by
        simp only [imgEntriesOf, hfc, List.map_cons]
      have he2 : imgGetsOf doc.id (p :: rest) =
          Op.getAttachment doc.id p.1 :: imgGetsOf doc.id rest := by
        simp only [imgGetsOf, hfc, List.map_cons]
      rw [List.map_cons, loadImagesFold_cons, if_pos himg]
      refine ⟨?_, ?_, ?_, ?_⟩
      · rw [ihh.1, he1]
        simp [List.append_assoc]
      · have hops : (acc.andThen (fun s => loadImageUrl s doc.id p.1)).ops =
            acc.ops ++ [Op.getAttachment doc.id p.1] := by
          simp [MethodResult.andThen, hacc, hload]
        rw [ihh.2.1, he2, hops]
        simp [List.append_assoc]
      · rw [ihh.2.2.1]
        simp [MethodResult.andThen, hacc, hload]
      · rw [ihh.2.2.2]
        simp [MethodResult.andThen, hacc, hload]
    · -- the head name is not an image: it is skipped
      have hfc : (p :: rest).filter (fun q => isImage q.1) =
          rest.filter (fun q => isImage q.1) :=
        List.filter_cons_of_neg (by simpa using himg)
      have he1 : imgEntriesOf doc.id (p :: rest) = imgEntriesOf doc.id rest := by
        simp only [imgEntriesOf, hfc]
      have he2 : imgGetsOf doc.id (p :: rest) = imgGetsOf doc.id rest := by
        simp only [imgGetsOf, hfc]
      have ihh := ih acc s1 hacc hdb hget
        (fun q hq => hsub q (List.mem_cons_of_mem _ hq))
        (by rw [hfc] at hnodup; exact hnodup)
        (fun q hq => hfresh q (by rw [hfc]; exact hq))
      rw [List.map_cons, loadImagesFold_cons, if_neg himg, he1, he2]
      exact ihh

/-- Processing one listed document (attachment-names fetch plus image
loads) appends exactly that document's image-cache entries, touches no
other `documentAttachments` key, and issues exactly `imgOps`. -/
theorem processDocImages_spec (db : Db) (doc : StoredDoc) (s : ViewState)
    (hdb : s.localDb = some db) (hget : db.get doc.id = some doc)
    (hda : lookupA s.documentAttachments doc.id = none)
    (hnodup : ((imgAtts doc).map (fun p => imgKey doc.id p.1)).Nodup)
    (hfresh : ∀ p ∈ imgAtts doc,
      lookupA s.imageUrls (imgKey doc.id p.1) = none) :
    (processDocImages s doc.id).state.imageUrls = s.imageUrls ++ imgEntries doc ∧
    (processDocImages s doc.id).state.localDb = s.localDb ∧
    (processDocImages s doc.id).state.documents = s.documents ∧
    (∀ k, k ≠ doc.id →
      lookupA (processDocImages s doc.id).state.documentAttachments k =
        lookupA s.documentAttachments k) ∧
    (processDocImages s doc.id).ops = imgOps doc ∧
    (processDocImages s doc.id).logs = [] ∧
    (processDocImages s doc.id).timers = [] := by
  cases hatt : doc.attachments with
  | nil =>
    have hDA : fetchDocumentAttachments s doc.id =
        { state := s, ops := [Op.get doc.id] } := by
      simp [fetchDocumentAttachments, hdb, hget, hatt]
    have hP : processDocImages s doc.id =
        { state := s, ops := [Op.get doc.id] } := by
      simp [processDocImages, hDA, MethodResult.andThen, hda]
    rw [hP]
    exact ⟨by simp [imgEntries, imgEntriesOf, hatt], rfl, rfl,
      fun k hk => rfl, by simp [imgOps, imgGetsOf, hatt], rfl, rfl⟩
  | cons q qs =>
    have hne : doc.attachments ≠ [] := by rw [hatt]; simp
    have hne' : doc.attachments.isEmpty = false := by
      rw [hatt]; rfl
    have hDA : fetchDocumentAttachments s doc.id =
        { state := { s with documentAttachments := updateA s.documentAttachments doc.id (doc.attachments.map (fun p => p.1)) },
          ops := [Op.get doc.id] } := by
      simp [fetchDocumentAttachments, hdb, hget, hne]
    have hlook : lookupA ({ s with documentAttachments := updateA s.documentAttachments doc.id (doc.attachments.map (fun p => p.1)) } : ViewState).documentAttachments doc.id = some (doc.attachments.map (fun p => p.1)) :=
      lookupA_updateA_self _ _ _
    have hfold := loadImagesFold_spec db doc doc.attachments
      { state := { s with documentAttachments := updateA s.documentAttachments doc.id (doc.attachments.map (fun p => p.1)) } }
      { s with documentAttachments := updateA s.documentAttachments doc.id (doc.attachments.map (fun p => p.1)) }
      rfl hdb hget (fun p hp => hp) hnodup hfresh
    have hP : processDocImages s doc.id =
        MethodResult.andThen
          { state := { s with documentAttachments := updateA s.documentAttachments doc.id (doc.attachments.map (fun p => p.1)) },
            ops := [Op.get doc.id] }
          (fun s2 => loadImagesFold doc.id { state := s2 }
            (doc.attachments.map (fun p => p.1))) := by
      unfold processDocImages
      rw [hDA]
      simp [MethodResult.andThen, hlook]
    rw [hP]
    refine ⟨?_, ?_, ?_, ?_, ?_, ?_, ?_⟩
    · rw [MethodResult.andThen]
      simp only [hfold.1]
      simp [imgEntries]
    · rw [MethodResult.andThen]
      simp only [hfold.1]
    · rw [MethodResult.andThen]
      simp only [hfold.1]
    · intro k hk
      rw [MethodResult.andThen]
      simp only [hfold.1]
      exact lookupA_updateA_ne _ _ _ _ hk
    · rw [MethodResult.andThen]
      simp only [hfold.2.1]
      simp [imgOps]
    · rw [MethodResult.andThen]
      simp only [hfold.2.2.1]
      rfl
    · rw [MethodResult.andThen]
      simp only [hfold.2.2.2]
      rfl

theorem imgDocsFold_cons (acc : MethodResult) (d : StoredDoc)
    (rest : List StoredDoc) :
    imgDocsFold acc (d :: rest) =
      imgDocsFold (acc.andThen (fun s => processDocImages s d.id)) rest := rfl

/-- Processing the listed documents in order builds exactly the
concatenation of the per-document image-cache entries and issues
exactly the concatenation of the per-document traces. -/
theorem imgDocsFold_spec (db : Db) :
    ∀ (docs : List StoredDoc) (acc : MethodResult) (s : ViewState),
    acc.state = s → s.localDb = some db →
    (∀ d ∈ docs, db.get d.id = some d) →
    ((docs.map (fun d => d.id)).Nodup) →
    (∀ d ∈ docs, lookupA s.documentAttachments d.id = none) →
    ((docs.flatMap (fun d => (imgAtts d).map (fun p => imgKey d.id p.1))).Nodup) →
    (∀ d ∈ docs, ∀ p ∈ imgAtts d,
      lookupA s.imageUrls (imgKey d.id p.1) = none) →
    (imgDocsFold acc docs).state.imageUrls = s.imageUrls ++ docs.flatMap imgEntries ∧
    (imgDocsFold acc docs).ops = acc.ops ++ docs.flatMap imgOps := by
  intro docs
  induction docs with
  | nil =>
    intro acc s hacc hdb hget hids hda hkeys hfresh
    exact ⟨by simp [imgDocsFold, hacc], by simp [imgDocsFold]⟩
  | cons d rest ih =>
    intro acc s hacc hdb hget hids hda hkeys hfresh
    have hkeys' := hkeys
    rw [List.flatMap_cons, List.nodup_append] at hkeys'
    have hspec := processDocImages_spec db d s hdb
      (hget d (List.mem_cons_self _ _)) (hda d (List.mem_cons_self _ _))
      hkeys'.1 (hfresh d (List.mem_cons_self _ _))
    have hentkeys : (imgEntries d).map Prod.fst =
        (imgAtts d).map (fun p => imgKey d.id p.1) := by
      simp [imgEntries, imgEntriesOf, imgAtts, List.map_map, Function.comp]
    have hacc' : (acc.andThen (fun s2 => processDocImages s2 d.id)).state =
        (processDocImages s d.id).state := by
      simp [MethodResult.andThen, hacc]
    have ihh := ih (acc.andThen (fun s2 => processDocImages s2 d.id))
      ((processDocImages s d.id).state) hacc'
      (by rw [hspec.2.1]; exact hdb)
      (fun e he => hget e (List.mem_cons_of_mem _ he))
      ((List.nodup_cons.mp hids).2)
      (fun e he => by
        have hne : e.id ≠ d.id := by
          have h1 : d.id ∉ rest.map (fun x => x.id) :=
            (List.nodup_cons.mp hids).1
          intro hc
          exact h1 (hc ▸ List.mem_map_of_mem _ he)
        rw [hspec.2.2.2.1 e.id hne]
        exact hda e (List.mem_cons_of_mem _ he))
      hkeys'.2.1
      (fun e he p hp => by
        rw [hspec.1, lookupA_append,
            hfresh e (List.mem_cons_of_mem _ he) p hp]
        simp only [Option.none_or]
        apply lookupA_eq_none_of_not_mem
        rw [hentkeys]
        intro hmem
        exact hkeys'.2.2 hmem
          (List.mem_flatMap.mpr ⟨e, he, List.mem_map_of_mem _ hp⟩))
    rw [imgDocsFold_cons]
    constructor
    · rw [ihh.1, hspec.1, List.flatMap_cons]
      simp [List.append_assoc]
    · have haops : (acc.andThen (fun s2 => processDocImages s2 d.id)).ops =
          acc.ops ++ imgOps d := by
        simp [MethodResult.andThen, hacc, hspec.2.2.2.2.1]
      rw [ihh.2, haops, List.flatMap_cons]
      simp [List.append_assoc]

theorem update_isSyncing_self (st : ViewState) (h : st.isSyncing = false) :
    ({ st with isSyncing := false } : ViewState) = st := by
  rw [← h]

/-! ## Claim theorems -/

/-- C4: for every database state, running `searchDocuments` with an
empty query is literally the unfiltered full listing: with an empty
`searchQuery` the method takes the fallback branch and its entire
behaviour (state, operations, logs, timers) coincides with
`fetchDocuments`. -/
theorem C4_empty_query_full_listing (rt : String → Bool) (fail : Bool)
    (st : ViewState) (h : st.searchQuery = "") :
    searchDocuments rt fail st = fetchDocuments fail st := by
  unfold searchDocuments
  cases hdb : st.localDb with
  | none => rfl
  | some db => simp [h]

/-- Witness for C4 at a concrete mounted state. -/
theorem C4_empty_query_full_listing_witness :
    (mkState wDb).searchQuery = "" ∧
    searchDocuments (ciContains "x") false (mkState wDb) =
      fetchDocuments false (mkState wDb) :=
  ⟨rfl, C4_empty_query_full_listing (ciContains "x") false (mkState wDb) rfl⟩

/-- C3 fails as stated: the guard does reject the overlapping
invocation (no sync, no store operation, no log, no timer), but the
early `return` still runs the `finally` block, which assigns
`isSyncing = false` — so the `isSyncing` component the claim names as
unchanged flips from `true` to `false` at this concrete busy
state. -/
theorem C3_counterexample :
    ({ mkState wDb with isSyncing := true } : ViewState).isSyncing = true ∧
    (synchronizeManually false false []
        { mkState wDb with isSyncing := true }).ops = [] ∧
    (synchronizeManually false false []
        { mkState wDb with isSyncing := true }).state.isSyncing = false :=
  ⟨rfl, rfl, rfl⟩

/-- C3 (amended): while a manual synchronization is already in flight,
a second `synchronizeManually` invocation starts no new sync and
produces no store operation, log entry or timer, and leaves
`documents` and `syncStatus` (indeed every component except
`isSyncing`) unchanged; the `finally` block, which runs even on the
guarded early return, resets `isSyncing` to `false` instead of
leaving it untouched. -/
theorem C3_sync_busy_guard (sf ff : Bool) (sdb : Db) (st : ViewState)
    (h : st.isSyncing = true) :
    synchronizeManually sf ff sdb st =
      { state := { st with isSyncing := false } } := by
  unfold synchronizeManually
  cases hdb : st.localDb with
  | none => rfl
  | some db => cases hs : st.storage <;> simp [h, hs]

/-- Witness for the amended C3 at a concrete busy state. -/
theorem C3_sync_busy_guard_witness :
    ({ mkState wDb with isSyncing := true } : ViewState).isSyncing = true ∧
    synchronizeManually false false [] { mkState wDb with isSyncing := true } =
      { state := { mkState wDb with isSyncing := false } } :=
  ⟨rfl, C3_sync_busy_guard false false [] _ rfl⟩

/-- C9: `addDocument` creates a document only when both form fields
are non-empty (JavaScript truthiness of the strings); if either is
empty the call is a complete no-op: no store operation is issued and
the state, including the form fields and the in-memory list, is
unchanged. -/
theorem C9_add_document_guard (freshId now : String) (ff : Bool)
    (st : ViewState) (h : st.newTitle = "" ∨ st.newDescription = "") :
    addDocument freshId now ff st = { state := st } := by
  unfold addDocument
  cases hdb : st.localDb with
  | none => rfl
  | some db =>
    have hc : ¬(st.newTitle ≠ "" ∧ st.newDescription ≠ "") := by
      rcases h with h | h <;> simp [h]
    simp [hc]

/-- Witness for C9: empty title, non-empty description. -/
theorem C9_add_document_guard_witness :
    ({ mkState wDb with newDescription := "D" } : ViewState).newTitle = "" ∧
    addDocument "n1" "2024-02-02T00:00:00.000Z" false
        { mkState wDb with newDescription := "D" } =
      { state := { mkState wDb with newDescription := "D" } } :=
  ⟨rfl, C9_add_document_guard "n1" "2024-02-02T00:00:00.000Z" false _ (Or.inl rfl)⟩

/-- C6: every modelled failing store or network operation is caught
inside its method (each method is a total function, so nothing
propagates to the caller), a diagnostic line is logged, and the
component state is left exactly as it was — in particular a failed
listing leaves the in-memory document list unchanged.  The conjuncts
cover the failure paths of the full listing, search, manual sync
(whose status line is the single UI-visible effect, per the source),
update, delete, attachment add, attachment remove (both the document
read and the removal itself failing), attachment listing, and
`JoshuaView`'s listing. -/
theorem C6_failures_caught_and_logged (st : ViewState) (jst : JoshuaState)
    (db jdb sdb : Db) (rt : String → Bool) (ff : Bool) (ed d doc : StoredDoc)
    (docId docId2 name name2 : String) (files : List FileData) :
    (fetchDocuments true st).state = st ∧
    (st.localDb = some db →
      (fetchDocuments true st).logs = ["fetch-documents-error"]) ∧
    (st.localDb = some db → st.searchQuery ≠ "" →
      searchDocuments rt true st =
        { state := st, ops := [Op.find], logs := ["search-error"] }) ∧
    (st.localDb = some db → st.storage = true → st.isSyncing = false →
      (synchronizeManually true ff sdb st).state.documents = st.documents ∧
      (synchronizeManually true ff sdb st).state.localDb = st.localDb ∧
      (synchronizeManually true ff sdb st).logs = ["sync-error"]) ∧
    (st.localDb = some db → st.editingDocument = some ed →
      ∀ msg, db.put ed = Except.error msg →
      updateDocument ff st =
        { state := st, ops := [Op.put ed.id], logs := ["update-error"] }) ∧
    (st.localDb = some db →
      ∀ msg, db.remove d.id d.rev = Except.error msg →
      deleteDocument ff d st =
        { state := st, ops := [Op.remove d.id], logs := ["delete-error"] }) ∧
    (st.localDb = some db → db.get docId = none →
      addAttachmentsToDocument st docId files =
        { state := st, ops := [Op.get docId],
          logs := ["attachments-add-error"] }) ∧
    (st.localDb = some db → db.get docId = none →
      deleteAttachment st docId name =
        { state := st, ops := [Op.get docId],
          logs := ["attachment-delete-error"] }) ∧
    (st.localDb = some db → db.get docId2 = some doc →
      ∀ msg, db.removeAttachment docId2 name2 doc.rev = Except.error msg →
      deleteAttachment st docId2 name2 =
        { state := st,
          ops := [Op.get docId2, Op.removeAttachment docId2 name2],
          logs := ["attachment-delete-error"] }) ∧
    (st.localDb = some db → db.get docId = none →
      fetchDocumentAttachments st docId =
        { state := st, ops := [Op.get docId],
          logs := ["attachments-fetch-error"] }) ∧
    (jst.db = some jdb →
      getAllDocs true jst = (jst, [Op.allDocs], ["fetch-error"])) := by
  refine ⟨?_, ?_, ?_, ?_, ?_, ?_, ?_, ?_, ?_, ?_, ?_⟩
  · cases hdb : st.localDb <;> simp [fetchDocuments, hdb]
  · intro hdb
    simp [fetchDocuments, hdb]
  · intro hdb hq
    simp [searchDocuments, hdb, hq]
  · intro hdb hs hb
    simp [synchronizeManually, hdb, hs, hb]
  · intro hdb hed msg hput
    simp [updateDocument, hdb, hed, hput]
  · intro hdb msg hrem
    simp [deleteDocument, hdb, hrem]
  · intro hdb hget
    simp [addAttachmentsToDocument, hdb, hget]
  · intro hdb hget
    simp [deleteAttachment, hdb, hget]
  · intro hdb hget msg hrem
    simp [deleteAttachment, hdb, hget, hrem]
  · intro hdb hget
    simp [fetchDocumentAttachments, hdb, hget]
  · intro hj
    simp [getAllDocs, hj]

/-- Witness for C6 at concrete failing inputs: a rejected listing, a
conflicting update (stale revision), and a removal of a non-existent
attachment. -/
theorem C6_failures_caught_and_logged_witness :
    (fetchDocuments true { mkState wDb with editingDocument := some { wDoc with rev := 4 } }).state =
      { mkState wDb with editingDocument := some { wDoc with rev := 4 } } ∧
    (fetchDocuments true { mkState wDb with editingDocument := some { wDoc with rev := 4 } }).logs =
      ["fetch-documents-error"] ∧
    updateDocument false { mkState wDb with editingDocument := some { wDoc with rev := 4 } } =
      { state := { mkState wDb with editingDocument := some { wDoc with rev := 4 } },
        ops := [Op.put "d1"], logs := ["update-error"] } ∧
    deleteAttachment { mkState wDb with editingDocument := some { wDoc with rev := 4 } } "d1" "nope.txt" =
      { state := { mkState wDb with editingDocument := some { wDoc with rev := 4 } },
        ops := [Op.get "d1", Op.removeAttachment "d1" "nope.txt"],
        logs := ["attachment-delete-error"] } :=
  ⟨(C6_failures_caught_and_logged
      { mkState wDb with editingDocument := some { wDoc with rev := 4 } }
      jNull wDb [] [] (ciContains "x") false { wDoc with rev := 4 }
      { wDoc with rev := 4 } wDoc "missing" "d1" "photo.png" "nope.txt"
      []).1,
   (C6_failures_caught_and_logged
      { mkState wDb with editingDocument := some { wDoc with rev := 4 } }
      jNull wDb [] [] (ciContains "x") false { wDoc with rev := 4 }
      { wDoc with rev := 4 } wDoc "missing" "d1" "photo.png" "nope.txt"
      []).2.1 rfl,
   (C6_failures_caught_and_logged
      { mkState wDb with editingDocument := some { wDoc with rev := 4 } }
      jNull wDb [] [] (ciContains "x") false { wDoc with rev := 4 }
      { wDoc with rev := 4 } wDoc "missing" "d1" "photo.png" "nope.txt"
      []).2.2.2.2.1 rfl rfl "conflict" rfl,
   (C6_failures_caught_and_logged
      { mkState wDb with editingDocument := some { wDoc with rev := 4 } }
      jNull wDb [] [] (ciContains "x") false { wDoc with rev := 4 }
      { wDoc with rev := 4 } wDoc "missing" "d1" "photo.png" "nope.txt"
      []).2.2.2.2.2.2.2.2.1 rfl rfl "not_found" rfl⟩

/-- C7: a non-empty query whose regex test matches no stored title
makes `searchDocuments` set the in-memory list to the empty list, with
no error logged (and, the method being total, no error raised). -/
theorem C7_no_match_empty_result (rt : String → Bool) (st : ViewState)
    (db : Db) (hdb : st.localDb = some db) (hq : st.searchQuery ≠ "")
    (hnone : ∀ d ∈ db, rt d.title = false) :
    (searchDocuments rt false st).state.documents = [] ∧
    (searchDocuments rt false st).logs = [] := by
  have hred : searchDocuments rt false st =
      { state := { st with documents := db.filter (fun d => rt d.title) },
        ops := [Op.find] } := by
    unfold searchDocuments
    rw [hdb]
    simp [hq]
  rw [hred]
  exact ⟨List.filter_eq_nil_iff.mpr (fun d hd => by simp [hnone d hd]), rfl⟩

/-- Witness for C7: the query `zzz` matches no title of the sample
database. -/
theorem C7_no_match_empty_result_witness :
    (searchDocuments (ciContains "zzz") false
        { mkState wDb with searchQuery := "zzz" }).state.documents = [] ∧
    (searchDocuments (ciContains "zzz") false
        { mkState wDb with searchQuery := "zzz" }).logs = [] :=
  C7_no_match_empty_result (ciContains "zzz") _ wDb rfl (by decide) (by decide)

/-- C10 fails as stated: with a null handle and the (unreachable, but
covered by the claim's quantifier) busy flag set, `synchronizeManually`
returns through its guard, yet the `finally` block still assigns
`isSyncing = false` — a component state change at this concrete
input. -/
theorem C10_counterexample :
    ({ nullState with isSyncing := true } : ViewState).localDb = none ∧
    ({ nullState with isSyncing := true } : ViewState).isSyncing = true ∧
    (synchronizeManually false false []
        { nullState with isSyncing := true }).state.isSyncing = false :=
  ⟨rfl, rfl, rfl⟩

/-- C10 (amended): with a never-initialized database handle every view
operation — full listing, search, manual sync, create, update, delete,
batch generation, attachment add/remove/listing, the image-loading
listing, and `JoshuaView`'s `getAllDocs` — returns without error, and
every operation except `synchronizeManually` leaves the component
state unchanged with an empty trace (`getAllDocs` logs one diagnostic
line).  `synchronizeManually` leaves every component unchanged except
`isSyncing`, which its `finally` block forces to `false`; since
`isSyncing` can never be `true` while the handle is null, the manual
sync too is a full no-op on every reachable null-handle state. -/
theorem C10_null_handle_ops (st : ViewState) (jst : JoshuaState)
    (rt : String → Bool) (sf ff fail : Bool) (sdb : Db)
    (freshId now nowLocale : String) (ids : Nat → String) (rnds : Nat → Nat)
    (d : StoredDoc) (files : List FileData) (docId name : String)
    (h : st.localDb = none) (hj : jst.db = none) :
    fetchDocuments fail st = { state := st } ∧
    searchDocuments rt fail st = { state := st } ∧
    synchronizeManually sf ff sdb st =
      { state := { st with isSyncing := false } } ∧
    (st.isSyncing = false → synchronizeManually sf ff sdb st = { state := st }) ∧
    addDocument freshId now ff st = { state := st } ∧
    updateDocument ff st = { state := st } ∧
    deleteDocument ff d st = { state := st } ∧
    generateBatchDocuments ids rnds now nowLocale ff st = { state := st } ∧
    addAttachmentsToDocument st docId files = { state := st } ∧
    deleteAttachment st docId name = { state := st } ∧
    fetchDocumentAttachments st docId = { state := st } ∧
    fetchDocumentsImg fail st = { state := st } ∧
    (getAllDocs fail jst).1 = jst ∧ (getAllDocs fail jst).2.1 = [] := by
  have hsync : synchronizeManually sf ff sdb st =
      { state := { st with isSyncing := false } } := by
    simp [synchronizeManually, h]
  refine ⟨?_, ?_, hsync,
    fun h9 => by rw [hsync, update_isSyncing_self st h9],
    ?_, ?_, ?_, ?_, ?_, ?_, ?_, ?_, ?_, ?_⟩ <;>
    simp [fetchDocuments, searchDocuments, addDocument,
          updateDocument, deleteDocument, generateBatchDocuments,
          addAttachmentsToDocument, deleteAttachment, fetchDocumentAttachments,
          fetchDocumentsImg, getAllDocs, h, hj]

/-- Witness for the amended C10 at concrete uninitialized states
(where `isSyncing` is `false`, so even the manual sync is a full
no-op). -/
theorem C10_null_handle_ops_witness :
    nullState.localDb = none ∧ jNull.db = none ∧
    nullState.isSyncing = false ∧
    fetchDocuments false nullState = { state := nullState } ∧
    synchronizeManually false false [] nullState = { state := nullState } ∧
    (getAllDocs false jNull).1 = jNull :=
  ⟨rfl, rfl, rfl,
   (C10_null_handle_ops nullState jNull (ciContains "x") false false false []
      "n" "t" "tl" (fun _ => "i") (fun _ => 0) wDoc [] "d1" "photo.png"
      rfl rfl).1,
   (C10_null_handle_ops nullState jNull (ciContains "x") false false false []
      "n" "t" "tl" (fun _ => "i") (fun _ => 0) wDoc [] "d1" "photo.png"
      rfl rfl).2.2.2.1 rfl,
   (C10_null_handle_ops nullState jNull (ciContains "x") false false false []
      "n" "t" "tl" (fun _ => "i") (fun _ => 0) wDoc [] "d1" "photo.png"
      rfl rfl).2.2.2.2.2.2.2.2.2.2.2.2.1⟩

/-- C2 fails as stated: when the one-shot sync rejects, the `catch`
block sets the error status but the `setTimeout` that clears the
status lives only on the success path, so at this concrete ready state
the failed run leaves a non-idle status and schedules no timer — the
status is never reset to idle. -/
theorem C2_counterexample :
    (synchronizeManually true false [] (mkState wDb)).state.syncStatus =
      "Erreur de synchronisation" ∧
    (synchronizeManually true false [] (mkState wDb)).state.syncStatus ≠ "" ∧
    (synchronizeManually true false [] (mkState wDb)).timers = [] :=
  ⟨rfl, by decide, rfl⟩

/-- C2 (amended): whenever a manual synchronization actually runs
(handle present, remote attached, not already busy), its completion —
success or failure — always clears the `isSyncing` busy flag; on
success the success status is displayed and a single 3000 ms timer is
scheduled whose firing resets the status to idle; on failure the error
status is displayed and no reset timer is scheduled, so the error
message persists. -/
theorem C2_sync_completion (sf ff : Bool) (sdb : Db) (st : ViewState)
    (db : Db) (hdb : st.localDb = some db) (hs : st.storage = true)
    (hb : st.isSyncing = false) :
    (synchronizeManually sf ff sdb st).state.isSyncing = false ∧
    (sf = false →
      (synchronizeManually sf ff sdb st).state.syncStatus =
        "Synchronisation réussie !" ∧
      (synchronizeManually sf ff sdb st).timers =
        [(syncStatusDelayMs, TimerAction.clearSyncStatus)] ∧
      (runTimer (synchronizeManually sf ff sdb st).state
        TimerAction.clearSyncStatus).syncStatus = "") ∧
    (sf = true →
      (synchronizeManually sf ff sdb st).state.syncStatus =
        "Erreur de synchronisation" ∧
      (synchronizeManually sf ff sdb st).timers = []) := by
  cases sf <;> simp [synchronizeManually, hdb, hs, hb, runTimer]

/-- Witness for the amended C2 at a concrete ready state. -/
theorem C2_sync_completion_witness :
    (mkState wDb).isSyncing = false ∧
    (synchronizeManually false false [] (mkState wDb)).timers =
      [(syncStatusDelayMs, TimerAction.clearSyncStatus)] :=
  ⟨rfl,
   ((C2_sync_completion false false [] (mkState wDb) wDb rfl rfl rfl).2.1
      rfl).2.1⟩

/-- C1 fails as stated for the removal half: deleting the document's
only attachment succeeds in the store (the document is left with no
attachments and a bumped revision), but `fetchDocumentAttachments`
updates `documentAttachments` only when the re-read document still
carries an `_attachments` map, so the displayed list still contains
the removed name. -/
theorem C1_counterexample :
    lookupA (deleteAttachment c1State "d1" "photo.png").state.documentAttachments
        "d1" = some ["photo.png"] ∧
    (deleteAttachment c1State "d1" "photo.png").state.localDb =
      some [{ c1Doc with rev := 6, attachments := [] }] := by
  constructor
  · rfl
  · rfl

/-- C1 (amended): after adding an attachment the re-fetched
attachment list of the document contains the new name; after removing
an attachment the re-fetched list no longer contains the name
*provided the document retains at least one other attachment*; when
the removed attachment was the document's last one, the displayed
attachment list is left unchanged (stale), so the name may still
appear there. -/
theorem C1_attachment_listing (st : ViewState) (db : Db) (docId : String)
    (doc : StoredDoc) (f : FileData) (name : String)
    (hdb : st.localDb = some db) (hget : db.get docId = some doc) :
    (∃ l, lookupA (addAttachmentsToDocument st docId [f]).state.documentAttachments
        docId = some l ∧ f.name ∈ l) ∧
    (doc.attachments.any (fun p => p.1 == name) = true →
      (∃ p ∈ doc.attachments, (p.1 == name) = false) →
      ∃ l, lookupA (deleteAttachment st docId name).state.documentAttachments
          docId = some l ∧ name ∉ l) ∧
    (doc.attachments.map (fun p => p.1) = [name] →
      (deleteAttachment st docId name).state.documentAttachments =
        st.documentAttachments) := by
  refine ⟨?_, ?_, ?_⟩
  · -- adding one attachment, then listing, shows the new name
    have hput := putAttachment_ok db docId f.name doc
      { content_type := f.type, data := f.data } hget
    have hget2 := get_map_if db docId doc
      (putAttUpdate f.name { content_type := f.type, data := f.data })
      (fun e => rfl) hget
    have hne : (putAttUpdate f.name
        { content_type := f.type, data := f.data } doc).attachments.isEmpty
        = false := by
      simp only [putAttUpdate]
      exact isEmpty_append_singleton _ _
    have hda : (addAttachmentsToDocument st docId [f]).state.documentAttachments =
        updateA st.documentAttachments docId
          ((putAttUpdate f.name { content_type := f.type, data := f.data }
              doc).attachments.map (fun p => p.1)) := by
      simp at hput hget2 hne
      simp [addAttachmentsToDocument, hdb, hget, MethodResult.andThen, hput,
            fetchDocumentAttachments, hget2, hne]
    refine ⟨_, by rw [hda]; exact lookupA_updateA_self _ _ _, ?_⟩
    simp [putAttUpdate]
  · -- removing an attachment while another one remains drops the name
    intro hany hsurv
    obtain ⟨p, hp, hpne⟩ := hsurv
    have hrem := removeAttachment_ok db docId name doc hget hany
    have hget2 := get_map_if db docId doc (removeAttUpdate name)
      (fun e => rfl) hget
    have hmemf : p ∈ doc.attachments.filter (fun q => !(q.1 == name)) :=
      List.mem_filter.mpr ⟨hp, by simp [hpne]⟩
    have hne : (removeAttUpdate name doc).attachments.isEmpty = false := by
      cases hf : doc.attachments.filter (fun q => !(q.1 == name)) with
      | nil => rw [hf] at hmemf; simp at hmemf
      | cons a l => simp [removeAttUpdate, hf]
    have hda : (deleteAttachment st docId name).state.documentAttachments =
        updateA st.documentAttachments docId
          ((removeAttUpdate name doc).attachments.map (fun p => p.1)) := by
      simp at hrem hget2 hne
      simp [deleteAttachment, hdb, hget, hrem, MethodResult.andThen,
            fetchDocumentAttachments, hget2, hne]
    refine ⟨_, by rw [hda]; exact lookupA_updateA_self _ _ _, ?_⟩
    intro hmem
    simp only [removeAttUpdate, List.mem_map] at hmem
    obtain ⟨q, hqf, hq1⟩ := hmem
    have := (List.mem_filter.mp hqf).2
    rw [hq1] at this
    simp at this
  · -- removing the last attachment leaves the displayed list stale
    intro hlast
    cases hatt : doc.attachments with
    | nil => rw [hatt] at hlast; simp at hlast
    | cons p rest =>
      rw [hatt] at hlast
      simp only [List.map_cons, List.cons.injEq] at hlast
      obtain ⟨hp1, hrest⟩ := hlast
      have hrnil : rest = [] := List.map_eq_nil_iff.mp hrest
      subst hrnil
      have hany : doc.attachments.any (fun q => q.1 == name) = true := by
        simp [hatt, hp1]
      have hrem := removeAttachment_ok db docId name doc hget hany
      have hget2 := get_map_if db docId doc (removeAttUpdate name)
        (fun e => rfl) hget
      have hemp : (removeAttUpdate name doc).attachments.isEmpty = true := by
        simp [removeAttUpdate, hatt, hp1]
      simp at hrem hget2 hemp
      simp [deleteAttachment, hdb, hget, hrem, MethodResult.andThen,
            fetchDocumentAttachments, hget2, hemp]

/-- Witness for the amended C1: concrete two-attachment document. -/
theorem C1_attachment_listing_witness :
    (∃ l, lookupA (addAttachmentsToDocument (mkState wDb) "d1"
        [{ name := "new.gif", type := "image/gif", data := "R0lGOD" }]
      ).state.documentAttachments "d1" = some l ∧ "new.gif" ∈ l) ∧
    (∃ l, lookupA (deleteAttachment (mkState wDb) "d1"
        "photo.png").state.documentAttachments "d1" = some l ∧
      "photo.png" ∉ l) :=
  ⟨(C1_attachment_listing (mkState wDb) wDb "d1" wDoc
      { name := "new.gif", type := "image/gif", data := "R0lGOD" }
      "photo.png" rfl rfl).1,
   (C1_attachment_listing (mkState wDb) wDb "d1" wDoc
      { name := "new.gif", type := "image/gif", data := "R0lGOD" }
      "photo.png" rfl rfl).2.1 (by decide)
     ⟨("notes.txt", wTextAtt), by decide, by decide⟩⟩

/-- C5 fails as stated: removing an attachment is a mutating user
action, yet its trace at this concrete state contains no `allDocs`
call — the view only re-reads the single affected document
(`fetchDocumentAttachments`), never the full listing. -/
theorem C5_counterexample :
    Op.isMutation (Op.removeAttachment "d1" "photo.png") = true ∧
    Op.removeAttachment "d1" "photo.png" ∈
      (deleteAttachment (mkState wDb) "d1" "photo.png").ops ∧
    Op.allDocs ∉ (deleteAttachment (mkState wDb) "d1" "photo.png").ops := by
  refine ⟨rfl, ?_, ?_⟩ <;> decide

/-- C5 (amended): document create (with no attachment files
selected), update, delete and batch generation each issue exactly one
mutating local-store operation and are followed by a full re-fetch of
the listing (`allDocs` appears in the trace); attachment add and
remove also issue exactly one mutating operation (after a preliminary
read of the document) but are followed only by a re-fetch of that
document's attachment names — no full listing re-fetch occurs. -/
theorem C5_mutation_refetch (st : ViewState) (db : Db)
    (freshId now nowLocale : String) (ids : Nat → String) (rnds : Nat → Nat)
    (ed cur d dcur doc : StoredDoc) (docId name : String) (f : FileData)
    (hdb : st.localDb = some db)
    (ht : st.newTitle ≠ "") (hd2 : st.newDescription ≠ "")
    (hsel : st.selectedFiles = [])
    (hed : st.editingDocument = some ed)
    (hcur : db.get ed.id = some cur) (hrev : cur.rev = ed.rev)
    (hdel : db.get d.id = some dcur) (hdrev : dcur.rev = d.rev)
    (hatt : db.get docId = some doc)
    (hany : doc.attachments.any (fun p => p.1 == name) = true) :
    (((addDocument freshId now false st).ops).filter Op.isMutation =
        [Op.post freshId] ∧
      Op.allDocs ∈ (addDocument freshId now false st).ops) ∧
    (((updateDocument false st).ops).filter Op.isMutation = [Op.put ed.id] ∧
      Op.allDocs ∈ (updateDocument false st).ops) ∧
    (((deleteDocument false d st).ops).filter Op.isMutation =
        [Op.remove d.id] ∧
      Op.allDocs ∈ (deleteDocument false d st).ops) ∧
    (((generateBatchDocuments ids rnds now nowLocale false st).ops).filter
        Op.isMutation = [Op.bulkDocs st.batchSize] ∧
      Op.allDocs ∈ (generateBatchDocuments ids rnds now nowLocale false st).ops) ∧
    (((addAttachmentsToDocument st docId [f]).ops).filter Op.isMutation =
        [Op.putAttachment docId f.name] ∧
      Op.allDocs ∉ (addAttachmentsToDocument st docId [f]).ops) ∧
    (((deleteAttachment st docId name).ops).filter Op.isMutation =
        [Op.removeAttachment docId name] ∧
      Op.allDocs ∉ (deleteAttachment st docId name).ops) := by
  refine ⟨?_, ?_, ?_, ?_, ?_, ?_⟩
  · -- create
    have hA : addDocument freshId now false st =
        MethodResult.andThen
          { state := { st with
              localDb := some (db.post freshId st.newTitle st.newDescription now),
              newTitle := "", newDescription := "", selectedFiles := [] },
            ops := [Op.post freshId] }
          (fetchDocuments false) := by
      simp [addDocument, hdb, ht, hd2, hsel]
    rw [hA, andThen_ops]
    constructor
    · rw [List.filter_append, fetchDocuments_mut_free]
      simp [Op.isMutation]
    · exact List.mem_append_right _ (fetchDocuments_allDocs_mem _ _ rfl)
  · -- update
    have hok : db.put ed =
        Except.ok (db.map (fun e =>
          if e.id == ed.id then { ed with rev := ed.rev + 1 } else e)) := by
      simp [Db.put, hcur, hrev]
    have hU : updateDocument false st =
        MethodResult.andThen
          { state := { st with
              localDb := some (db.map (fun e =>
                if e.id == ed.id then { ed with rev := ed.rev + 1 } else e)),
              editingDocument := none, showEditForm := false },
            ops := [Op.put ed.id] }
          (fetchDocuments false) := by
      simp at hok
      simp [updateDocument, hdb, hed, hok]
    rw [hU, andThen_ops]
    constructor
    · rw [List.filter_append, fetchDocuments_mut_free]
      simp [Op.isMutation]
    · exact List.mem_append_right _ (fetchDocuments_allDocs_mem _ _ rfl)
  · -- delete
    have hok : db.remove d.id d.rev =
        Except.ok (db.filter (fun e => !(e.id == d.id))) := by
      simp [Db.remove, hdel, hdrev]
    have hD : deleteDocument false d st =
        MethodResult.andThen
          { state := { st with
              localDb := some (db.filter (fun e => !(e.id == d.id))) },
            ops := [Op.remove d.id] }
          (fetchDocuments false) := by
      simp at hok
      simp [deleteDocument, hdb, hok]
    rw [hD, andThen_ops]
    constructor
    · rw [List.filter_append, fetchDocuments_mut_free]
      simp [Op.isMutation]
    · exact List.mem_append_right _ (fetchDocuments_allDocs_mem _ _ rfl)
  · -- batch generation
    have hG : generateBatchDocuments ids rnds now nowLocale false st =
        MethodResult.andThen
          { state := { st with
              localDb := some (db ++ (List.range st.batchSize).map
                (fun i => batchDoc (ids i) (rnds i) i now nowLocale)) },
            ops := [Op.bulkDocs st.batchSize] }
          (fetchDocuments false) := by
      simp [generateBatchDocuments, hdb]
    rw [hG, andThen_ops]
    constructor
    · rw [List.filter_append, fetchDocuments_mut_free]
      simp [Op.isMutation]
    · exact List.mem_append_right _ (fetchDocuments_allDocs_mem _ _ rfl)
  · -- attachment add: one mutation, no full re-fetch
    have hput := putAttachment_ok db docId f.name doc
      { content_type := f.type, data := f.data } hatt
    have hget2 := get_map_if db docId doc
      (putAttUpdate f.name { content_type := f.type, data := f.data })
      (fun e => rfl) hatt
    have hne : (putAttUpdate f.name
        { content_type := f.type, data := f.data } doc).attachments.isEmpty
        = false := by
      simp only [putAttUpdate]
      exact isEmpty_append_singleton _ _
    have hops : (addAttachmentsToDocument st docId [f]).ops =
        [Op.get docId, Op.putAttachment docId f.name, Op.get docId] := by
      simp at hput hget2 hne
      simp [addAttachmentsToDocument, hdb, hatt, MethodResult.andThen, hput,
            fetchDocumentAttachments, hget2, hne]
    rw [hops]
    constructor
    · simp [Op.isMutation]
    · simp
  · -- attachment remove: one mutation, no full re-fetch
    have hrem := removeAttachment_ok db docId name doc hatt hany
    have hget2 := get_map_if db docId doc (removeAttUpdate name)
      (fun e => rfl) hatt
    have hops : (deleteAttachment st docId name).ops =
        [Op.get docId, Op.removeAttachment docId name, Op.get docId] := by
      simp at hrem hget2
      by_cases he : (removeAttUpdate name doc).attachments.isEmpty = true <;>
        simp [deleteAttachment, hdb, hatt, hrem, MethodResult.andThen,
              fetchDocumentAttachments, hget2, he]
    rw [hops]
    constructor
    · simp [Op.isMutation]
    · simp

/-- Witness for the amended C5 at a concrete fully-set-up state. -/
theorem C5_mutation_refetch_witness :
    ((addDocument "n1" "t1" false
        { mkState wDb with newTitle := "T", newDescription := "D",
                           editingDocument := some wDoc }).ops).filter
      Op.isMutation = [Op.post "n1"] ∧
    Op.allDocs ∉ (deleteAttachment
        { mkState wDb with newTitle := "T", newDescription := "D",
                           editingDocument := some wDoc }
        "d1" "photo.png").ops :=
  ⟨(C5_mutation_refetch
      { mkState wDb with newTitle := "T", newDescription := "D",
                         editingDocument := some wDoc }
      wDb "n1" "t1" "tl" (fun _ => "i") (fun _ => 0) wDoc wDoc wDoc wDoc wDoc
      "d1" "photo.png" { name := "new.gif", type := "image/gif", data := "R0" }
      rfl (by decide) (by decide) rfl rfl rfl rfl rfl rfl rfl
      (by decide)).1.1,
   (C5_mutation_refetch
      { mkState wDb with newTitle := "T", newDescription := "D",
                         editingDocument := some wDoc }
      wDb "n1" "t1" "tl" (fun _ => "i") (fun _ => 0) wDoc wDoc wDoc wDoc wDoc
      "d1" "photo.png" { name := "new.gif", type := "image/gif", data := "R0" }
      rfl (by decide) (by decide) rfl rfl rfl rfl rfl rfl rfl
      (by decide)).2.2.2.2.2.2⟩

/-- C8: from a freshly mounted state (empty attachment-name and
image-URL caches), the image-loading full listing caches — under the
key `docId-attachmentName` — the object URL constructed from the
fetched binary payload, for exactly those attachments of listed
documents whose lowercased filename ends in `.jpg`, `.jpeg`, `.png`,
`.gif` or `.webp` (`isImage`); the trace contains one payload read per
such attachment and none for any other.  Distinct document ids and
distinct cache keys are assumed (PouchDB ids are unique; a key
collision would alias cache slots). -/
theorem C8_image_cache (db : Db) (st : ViewState)
    (hdb : st.localDb = some db) (hda : st.documentAttachments = [])
    (hiu : st.imageUrls = [])
    (hids : (db.map (fun d => d.id)).Nodup)
    (hkeys : (db.flatMap (fun d => (imgAtts d).map (fun p => imgKey d.id p.1))).Nodup) :
    (fetchDocumentsImg false st).state.imageUrls = db.flatMap imgEntries ∧
    (fetchDocumentsImg false st).ops = Op.allDocs :: db.flatMap imgOps := by
  have h := imgDocsFold_spec db db
    { state := { st with documents := db, localDb := some db },
      ops := [Op.allDocs] }
    { st with documents := db, localDb := some db } rfl rfl
    (fun d hd => get_of_mem_nodup db d hids hd) hids
    (fun d hd => by
      show lookupA st.documentAttachments d.id = none
      rw [hda]; rfl)
    hkeys
    (fun d hd p hp => by
      show lookupA st.imageUrls (imgKey d.id p.1) = none
      rw [hiu]; rfl)
  have hF : fetchDocumentsImg false st =
      imgDocsFold
        { state := { st with documents := db, localDb := some db },
          ops := [Op.allDocs] } db := by
    simp only [fetchDocumentsImg, hdb, Bool.false_eq_true, if_false]
  rw [hF]
  constructor
  · rw [h.1]
    show st.imageUrls ++ db.flatMap imgEntries = db.flatMap imgEntries
    rw [hiu, List.nil_append]
  · rw [h.2]
    rfl

/-- Witness for C8: the sample database has one image and one text
attachment; exactly the image is cached and fetched. -/
theorem C8_image_cache_witness :
    (fetchDocumentsImg false (mkState wDb)).state.imageUrls =
      wDb.flatMap imgEntries ∧
    (fetchDocumentsImg false (mkState wDb)).ops =
      Op.allDocs :: wDb.flatMap imgOps :=
  C8_image_cache wDb (mkState wDb) rfl rfl rfl (by decide) (by decide)

end DocView
